import Mathlib

/-!
Verification of `scripts/simulateNewReserves.py` (ConveyorLabs/smart_contracts).

The script reads three integers from the command line, computes
`reserveB = math.ceil((reserveIn * reserveOut) / (reserveIn + alphaX))`
using Python's binary64 floating-point true division, ABI-encodes the result
as a `uint256`, and prints `"0x" + enc.hex()`.

The embedding below models:
  * Python's `int(...)` parsing of the argument strings;
  * Python's `/` on arbitrary-precision integers, which produces the
    IEEE-754 binary64 value nearest to the exact quotient (ties to even),
    raising `ZeroDivisionError` on a zero divisor and `OverflowError` when
    the correctly rounded result is at least `2^1024`;
  * `math.ceil` on the resulting (exactly represented) float;
  * the `eth_abi.encode_single('uint256', ...)` call followed by `.hex()`,
    modelled from the spec's encoding contract (32-byte big-endian,
    out-of-range values rejected), since the library is external.

Floats are represented exactly as a signed mantissa/exponent pair
`(m, e) : ℤ × ℤ` with value `m * 2^e`; all arithmetic is exact over ℕ/ℤ.
-/

set_option maxRecDepth 100000
set_option maxHeartbeats 1000000

deriving instance DecidableEq for Except

namespace SimulateNewReserves

/-- The failure conditions the script can hit at runtime. -/
inductive PyErr : Type where
  | valueError        : PyErr  -- int() applied to a non-integer string
  | indexError        : PyErr  -- missing command-line argument
  | zeroDivisionError : PyErr  -- division by zero
  | overflowError     : PyErr  -- int/int quotient too large for a float
  | valueOutOfBounds  : PyErr  -- eth_abi encoding rejects the value
  deriving DecidableEq, Repr

/-- Smallest `k` with `A < Bc * 2^k`, found by doubling `Bc`; `f` is fuel
(`f = A` always suffices because `A < 2^A ≤ Bc * 2^A`). -/
def upExp (A : ℕ) : ℕ → ℕ → ℕ
  | 0, _ => 0
  | f + 1, Bc => if A < Bc then 0 else upExp A f (2 * Bc) + 1

/-- Smallest `j` with `B ≤ Ac * 2^j`, found by doubling `Ac`; `f` is fuel
(`f = B` always suffices). -/
def jExp (B : ℕ) : ℕ → ℕ → ℕ
  | 0, _ => 0
  | f + 1, Ac => if B ≤ Ac then 0 else jExp B f (2 * Ac) + 1

/-- Round the rational `N / D` to the nearest integer, ties to even. -/
def rnd (N D : ℕ) : ℕ :=
  if 2 * (N % D) < D then N / D
  else if D < 2 * (N % D) then N / D + 1
  else if N / D % 2 = 0 then N / D else N / D + 1

/-- Round the positive rational `A / B` to the IEEE-754 binary64 grid of
exponent `s` (where `2^s ≤ A / B < 2^(s+1)`): the grid spacing is
`2^(s-52)` for normal values and `2^(-1074)` in the subnormal range, and
the mantissa is rounded to nearest, ties to even.  Returns `(m, e)` with
value `m * 2^e`. -/
def roundAt (A B : ℕ) (s : ℤ) : ℕ × ℤ :=
  let e : ℤ := if s ≤ -1022 then -1074 else s - 52
  if 0 ≤ e then (rnd A (B * 2 ^ e.toNat), e)
  else (rnd (A * 2 ^ (-e).toNat) B, e)

/-- The IEEE-754 binary64 rounding of the positive rational `A / B`
(both arguments positive): locate the binade `2^s ≤ A / B < 2^(s+1)` by
doubling, then round onto the corresponding grid. -/
def pyRoundPos (A B : ℕ) : ℕ × ℤ :=
  if B ≤ A then roundAt A B ((upExp A A B : ℤ) - 1)
  else roundAt A B (-(jExp B B A : ℤ))

/-- Python's true division `a / b` on arbitrary-precision integers: the
binary64 float nearest to the exact quotient (ties to even), as an exact
`(mantissa, exponent)` pair.  Raises `ZeroDivisionError` when `b = 0` and
`OverflowError` when the rounded result is `≥ 2^1024`. -/
def pyDivInt (a b : ℤ) : Except PyErr (ℤ × ℤ) :=
  if b = 0 then .error .zeroDivisionError
  else if a = 0 then .ok (0, 0)
  else
    let me := pyRoundPos a.natAbs b.natAbs
    if 0 ≤ me.2 ∧ 2 ^ 1024 ≤ me.1 * 2 ^ me.2.toNat then .error .overflowError
    else .ok (if (a < 0) = (b < 0) then (me.1 : ℤ) else -(me.1 : ℤ), me.2)

/-- `math.ceil` on an exactly represented binary64 value `m * 2^e`. -/
def mathCeil (f : ℤ × ℤ) : ℤ :=
  if 0 ≤ f.2 then f.1 * 2 ^ f.2.toNat
  else -((-f.1).fdiv (2 ^ (-f.2).toNat))

/-- `reserveB = math.ceil((reserveIn * reserveOut) / (reserveIn + alphaX))`
from the script, with Python's float division semantics. -/
def simulate (alphaX reserveIn reserveOut : ℤ) : Except PyErr ℤ :=
  (pyDivInt (reserveIn * reserveOut) (reserveIn + alphaX)).map mathCeil

/-- The sixteen lowercase hexadecimal digit characters. -/
def hexDigitList : List Char := "0123456789abcdef".toList

/-- The lowercase hexadecimal digit for a nibble value. -/
def hexDigit (d : ℕ) : Char := hexDigitList.getD d '0'

/-- Big-endian base-16 encoding of `n` padded to exactly `k` digits
(`k = 64` gives the hex of the 32-byte big-endian `uint256` encoding). -/
def hexChars : ℕ → ℕ → List Char
  | 0, _ => []
  | k + 1, n => hexChars k (n / 16) ++ [hexDigit (n % 16)]

/-- The nibble value of a hexadecimal digit character (junk maps to 16). -/
def hexVal (c : Char) : ℕ := hexDigitList.findIdx (fun d => d = c)

/-- Interpret a big-endian string of hexadecimal digit characters as a
natural number. -/
def decodeHex (l : List Char) : ℕ := l.foldl (fun acc c => 16 * acc + hexVal c) 0

/-- Modelled from the spec: `eth_abi.encode_single('uint256', n)` followed
by `.hex()` — the external library is not part of the repository.  Per the
spec's encoding contract, a value representable as a `uint256` is encoded
as 32 big-endian bytes (64 lowercase hex characters) and anything else is
rejected with an out-of-range failure. -/
def encode_single_uint256 (n : ℤ) : Except PyErr (List Char) :=
  if 0 ≤ n ∧ n < 2 ^ 256 then .ok (hexChars 64 n.toNat)
  else .error .valueOutOfBounds

/-- The computation performed by `main` after argument parsing: simulate,
encode, and produce the printed line `"0x" + enc.hex()`. -/
def pyRun (alphaX reserveIn reserveOut : ℤ) : Except PyErr String := do
  let reserveB ← simulate alphaX reserveIn reserveOut
  let enc ← encode_single_uint256 reserveB
  pure (String.mk ('0' :: 'x' :: enc))

/-- Characters stripped by Python's `int()` before parsing. -/
def isPySpace (c : Char) : Bool :=
  c = ' ' || c = '\t' || c = '\n' || c = '\r' || c = '\x0b' || c = '\x0c'

/-- The value of a decimal digit character, if it is one. -/
def pyDigit (c : Char) : Option ℕ :=
  if '0' ≤ c ∧ c ≤ '9' then some (c.toNat - '0'.toNat) else none

/-- Parse a nonempty decimal digit string, allowing single underscores
between digits (Python's integer-literal grammar); `pd` records whether the
previous character was a digit and `acc` the value so far. -/
def digitsVal : Bool → ℕ → List Char → Option ℕ
  | pd, acc, [] => if pd then some acc else none
  | pd, acc, c :: cs =>
    if c = '_' then (if pd then digitsVal false acc cs else none)
    else
      match pyDigit c with
      | some d => digitsVal true (10 * acc + d) cs
      | none => none

/-- The characters of `s` with surrounding whitespace stripped, as Python's
`int()` does before parsing. -/
def pyStrip (s : String) : List Char :=
  ((s.toList.dropWhile isPySpace).reverse.dropWhile isPySpace).reverse

/-- Python's `int(s)` on a text argument: strip surrounding whitespace,
accept an optional sign followed by base-10 digits, and raise `ValueError`
otherwise. -/
def pyInt (s : String) : Except PyErr ℤ :=
  match pyStrip s with
  | '-' :: rest =>
    match digitsVal false 0 rest with
    | some n => .ok (-(n : ℤ))
    | none => .error .valueError
  | '+' :: rest =>
    match digitsVal false 0 rest with
    | some n => .ok (n : ℤ)
    | none => .error .valueError
  | l =>
    match digitsVal false 0 l with
    | some n => .ok (n : ℤ)
    | none => .error .valueError

/-- `args[i]` in Python: the `i`-th command-line argument, raising
`IndexError` when missing. -/
def getArg (args : List String) (i : ℕ) : Except PyErr String :=
  match args.get? i with
  | some s => .ok s
  | none => .error .indexError

/-- The whole script: `alphaX = int(args[1])`, `reserveIn = int(args[2])`,
`reserveOut = int(args[3])`, then compute, encode and print.  The result is
the printed line on success or the raised error. -/
def pyMain (args : List String) : Except PyErr String := do
  let alphaX ← getArg args 1 >>= pyInt
  let reserveIn ← getArg args 2 >>= pyInt
  let reserveOut ← getArg args 3 >>= pyInt
  pyRun alphaX reserveIn reserveOut

/-- The spec's reference ceiling division:
`ceilingDivide(a, b) = floor(a / b) + (1 if a mod b != 0 else 0)`. -/
def specCeilingDivide (a b : ℕ) : ℕ :=
  a / b + (if a % b ≠ 0 then 1 else 0)

/-! ## Helper lemmas -/

theorem bind_ok {α β : Type} {g : α → Except PyErr β} {x : Except PyErr α} {r : β}
    (h : (x >>= g) = .ok r) : ∃ u, x = .ok u ∧ g u = .ok r := by
  cases x with
  | error msg => exact Except.noConfusion h
  | ok u => exact ⟨u, rfl, h⟩

theorem error_bind {α β : Type} {msg : PyErr} {g : α → Except PyErr β} :
    ((.error msg : Except PyErr α) >>= g) = .error msg := rfl

theorem ok_bind {α β : Type} {u : α} {g : α → Except PyErr β} :
    ((.ok u : Except PyErr α) >>= g) = g u := rfl

theorem hexChars_length (k : ℕ) : ∀ n : ℕ, (hexChars k n).length = k := by
  induction k with
  | zero => intro n; rfl
  | succ k ih => intro n; simp [hexChars, ih]

theorem hexDigit_mem (d : ℕ) : hexDigit d ∈ hexDigitList := by
  rcases lt_or_ge d 16 with h | h
  · revert h; revert d; decide
  · have hlen : hexDigitList.length ≤ d := by simpa [hexDigitList] using h
    have : hexDigit d = '0' := by
      simp [hexDigit, List.getD_eq_getElem?_getD, List.getElem?_eq_none, hlen]
    rw [this]; decide

theorem hexChars_mem (k : ℕ) : ∀ n c, c ∈ hexChars k n → c ∈ hexDigitList := by
  induction k with
  | zero => intro n c h; simp [hexChars] at h
  | succ k ih =>
    intro n c h
    simp only [hexChars, List.mem_append, List.mem_singleton] at h
    rcases h with h | h
    · exact ih _ c h
    · rw [h]; exact hexDigit_mem _

theorem hexVal_hexDigit : ∀ d : ℕ, d < 16 → hexVal (hexDigit d) = d := by decide

theorem decode_hexChars (k : ℕ) :
    ∀ n acc : ℕ, n < 16 ^ k →
      (hexChars k n).foldl (fun a c => 16 * a + hexVal c) acc = acc * 16 ^ k + n := by
  induction k with
  | zero =>
    intro n acc h
    interval_cases n
    simp [hexChars]
  | succ k ih =>
    intro n acc h
    have hdiv : n / 16 < 16 ^ k := by
      rw [Nat.div_lt_iff_lt_mul (by norm_num)]
      calc n < 16 ^ (k + 1) := h
        _ = 16 ^ k * 16 := by rw [pow_succ]
    have hmod : n % 16 < 16 := Nat.mod_lt _ (by norm_num)
    calc (hexChars (k + 1) n).foldl (fun a c => 16 * a + hexVal c) acc
        = (hexChars k (n / 16) ++ [hexDigit (n % 16)]).foldl
            (fun a c => 16 * a + hexVal c) acc := rfl
      _ = 16 * ((hexChars k (n / 16)).foldl (fun a c => 16 * a + hexVal c) acc)
            + hexVal (hexDigit (n % 16)) := by rw [List.foldl_append]; rfl
      _ = 16 * (acc * 16 ^ k + n / 16) + n % 16 := by
            rw [ih _ acc hdiv, hexVal_hexDigit _ hmod]
      _ = acc * 16 ^ (k + 1) + (16 * (n / 16) + n % 16) := by ring
      _ = acc * 16 ^ (k + 1) + n := by
            have := Nat.div_add_mod n 16; omega

theorem upExp_lt (A : ℕ) : ∀ f Bc : ℕ, A < Bc * 2 ^ f → A < Bc * 2 ^ upExp A f Bc := by
  intro f
  induction f with
  | zero => intro Bc h; simpa [upExp] using h
  | succ f ih =>
    intro Bc h
    rw [upExp]
    split
    · simpa using ‹A < Bc›
    · have h' : A < 2 * Bc * 2 ^ f := by
        calc A < Bc * 2 ^ (f + 1) := h
          _ = 2 * Bc * 2 ^ f := by ring
      have := ih (2 * Bc) h'
      calc A < 2 * Bc * 2 ^ upExp A f (2 * Bc) := this
        _ = Bc * 2 ^ (upExp A f (2 * Bc) + 1) := by ring

theorem upExp_pred (A : ℕ) : ∀ f Bc : ℕ, 0 < upExp A f Bc →
    Bc * 2 ^ (upExp A f Bc - 1) ≤ A := by
  intro f
  induction f with
  | zero => intro Bc h; simp [upExp] at h
  | succ f ih =>
    intro Bc h
    rw [upExp] at h ⊢
    split
    · simp_all [upExp]
    · have hBA : Bc ≤ A := by omega
      simp only [Nat.add_sub_cancel]
      rcases Nat.eq_zero_or_pos (upExp A f (2 * Bc)) with h0 | hpos
      · simpa [h0] using hBA
      · have := ih (2 * Bc) hpos
        obtain ⟨j, hj⟩ : ∃ j, upExp A f (2 * Bc) = j + 1 :=
          ⟨upExp A f (2 * Bc) - 1, by omega⟩
        rw [hj] at this ⊢
        simp only [Nat.add_sub_cancel] at this ⊢
        calc Bc * 2 ^ (j + 1) = 2 * Bc * 2 ^ j := by ring
          _ ≤ A := this

/-- `rnd` never exceeds the floor of the quotient by more than one. -/
theorem rnd_le (N D : ℕ) : rnd N D ≤ N / D + 1 := by
  unfold rnd; split_ifs <;> omega

theorem upExp_pos (A Bc : ℕ) (hBA : Bc ≤ A) (f : ℕ) (hf : 0 < f) : 0 < upExp A f Bc := by
  obtain ⟨g, rfl⟩ : ∃ g, f = g + 1 := ⟨f - 1, by omega⟩
  rw [upExp, if_neg (by omega)]
  omega

theorem roundAt_snd (A B : ℕ) (s : ℤ) :
    (roundAt A B s).2 = if s ≤ -1022 then -1074 else s - 52 := by
  simp only [roundAt]
  split <;> split <;> rfl

/-- In the binade `2^(k-1) ≤ A/B < 2^k` with `A < 2^512`, the rounded
mantissa times its grid never reaches the float overflow threshold. -/
theorem roundAt_no_overflow (A B k : ℕ) (hB : 0 < B) (hk : 0 < k)
    (hup : A < B * 2 ^ k) (hlow : B * 2 ^ (k - 1) ≤ A) (hbound : A < 2 ^ 512)
    (he : 0 ≤ (roundAt A B ((k : ℤ) - 1)).2) :
    (roundAt A B ((k : ℤ) - 1)).1 * 2 ^ (roundAt A B ((k : ℤ) - 1)).2.toNat < 2 ^ 1024 := by
  have hs1022 : ¬ ((k : ℤ) - 1 ≤ -1022) := by omega
  have hsnd : (roundAt A B ((k : ℤ) - 1)).2 = (k : ℤ) - 53 := by
    rw [roundAt_snd, if_neg hs1022]; ring
  have hk53 : 53 ≤ k := by
    have := he; rw [hsnd] at this; omega
  have hfst : (roundAt A B ((k : ℤ) - 1)).1 = rnd A (B * 2 ^ (k - 53)) := by
    simp only [roundAt, if_neg hs1022]
    rw [if_pos (by omega : (0:ℤ) ≤ (k : ℤ) - 1 - 52)]
    have : ((k : ℤ) - 1 - 52).toNat = k - 53 := by omega
    rw [this]
  have htoNat : (roundAt A B ((k : ℤ) - 1)).2.toNat = k - 53 := by
    rw [hsnd]; omega
  have hDpos : 0 < B * 2 ^ (k - 53) := Nat.mul_pos hB (Nat.pos_pow_of_pos _ (by norm_num))
  have hq : A / (B * 2 ^ (k - 53)) < 2 ^ 53 := by
    rw [Nat.div_lt_iff_lt_mul hDpos]
    calc A < B * 2 ^ k := hup
      _ = 2 ^ 53 * (B * 2 ^ (k - 53)) := by
        have hkk : (2:ℕ) ^ k = 2 ^ 53 * 2 ^ (k - 53) := by
          rw [← pow_add]; congr 1; omega
        rw [hkk]; ring
  have hm : rnd A (B * 2 ^ (k - 53)) ≤ 2 ^ 53 := by
    have := rnd_le A (B * 2 ^ (k - 53)); omega
  have hk512 : k ≤ 512 := by
    by_contra hcon
    have h1 : 2 ^ 512 ≤ 2 ^ (k - 1) :=
      Nat.pow_le_pow_right (by norm_num) (by omega)
    have h2 : 2 ^ (k - 1) ≤ B * 2 ^ (k - 1) := Nat.le_mul_of_pos_left _ hB
    omega
  rw [hfst, htoNat]
  calc rnd A (B * 2 ^ (k - 53)) * 2 ^ (k - 53) ≤ 2 ^ 53 * 2 ^ (k - 53) :=
        Nat.mul_le_mul_right _ hm
    _ = 2 ^ k := by rw [← pow_add]; congr 1; omega
    _ ≤ 2 ^ 512 := Nat.pow_le_pow_right (by norm_num) hk512
    _ < 2 ^ 1024 := Nat.pow_lt_pow_right (by norm_num) (by norm_num)

/-- For a positive quotient of magnitude below `2^512`, the binary64
rounding never overflows. -/
theorem pyRoundPos_no_overflow (A B : ℕ) (hA : 0 < A) (hB : 0 < B)
    (hbound : A < 2 ^ 512) (he : 0 ≤ (pyRoundPos A B).2) :
    (pyRoundPos A B).1 * 2 ^ (pyRoundPos A B).2.toNat < 2 ^ 1024 := by
  unfold pyRoundPos at he ⊢
  by_cases hBA : B ≤ A
  · rw [if_pos hBA] at he ⊢
    have hk : 0 < upExp A A B := upExp_pos A B hBA A hA
    have hup : A < B * 2 ^ upExp A A B := by
      apply upExp_lt
      calc A < 2 ^ A := Nat.lt_two_pow A
        _ ≤ B * 2 ^ A := Nat.le_mul_of_pos_left _ hB
    have hlow : B * 2 ^ (upExp A A B - 1) ≤ A := upExp_pred A A B hk
    exact roundAt_no_overflow A B (upExp A A B) hB hk hup hlow hbound he
  · rw [if_neg hBA] at he
    exfalso
    rw [roundAt_snd] at he
    split at he <;> omega

/-- When the divisor is nonzero and the dividend's magnitude is below
`2^512`, Python's integer true division succeeds. -/
theorem pyDivInt_ok (a b : ℤ) (hb : b ≠ 0) (ha : a.natAbs < 2 ^ 512) :
    ∃ v, pyDivInt a b = .ok v := by
  unfold pyDivInt
  rw [if_neg hb]
  by_cases haz : a = 0
  · rw [if_pos haz]; exact ⟨_, rfl⟩
  · rw [if_neg haz]
    have hA : 0 < a.natAbs := Int.natAbs_pos.mpr haz
    have hB : 0 < b.natAbs := Int.natAbs_pos.mpr hb
    have hno := pyRoundPos_no_overflow a.natAbs b.natAbs hA hB ha
    rw [if_neg (fun hcon => absurd hcon.2 (not_le.mpr (hno hcon.1)))]
    exact ⟨_, rfl⟩

theorem pyInt_shape (s : String) : pyInt s = .error .valueError ∨ ∃ v, pyInt s = .ok v := by
  unfold pyInt
  split <;> split <;> first
    | exact Or.inl rfl
    | exact Or.inr ⟨_, rfl⟩

theorem isOk_false {s : String} (h : (pyInt s).isOk = false) :
    pyInt s = .error .valueError := by
  rcases pyInt_shape s with hs | ⟨v, hs⟩
  · exact hs
  · rw [hs] at h; simp [Except.isOk, Except.toBool] at h

/-! ## The claims -/

/-- Claim C1 (code bug): the script computes the new reserve through binary64
float division, so for `alphaIn = 0`, `reserveIn = 1`, `reserveOut = 2^54 + 1`
it returns `2^54`, although the exact ceiling required by the claim (and
computed by the spec's `ceilingDivide`) is `2^54 + 1`; the claimed inequality
`result * (reserveIn + alphaIn) ≥ reserveIn * reserveOut` fails on this input. -/
theorem claim1_float_rounding_bug :
    simulate 0 1 18014398509481985 = .ok 18014398509481984 ∧
    specCeilingDivide (1 * 18014398509481985) (1 + 0) = 18014398509481985 ∧
    (18014398509481984 : ℤ) * (1 + 0) < 1 * 18014398509481985 :=
  ⟨by decide, by decide, by decide⟩

/-- Claim C2, counterexample: for non-negative inputs with
`reserveIn + alphaIn ≠ 0` the division step can still fail — Python raises
`OverflowError` when the quotient exceeds the binary64 range — so failure is
not equivalent to `reserveIn + alphaIn = 0`. -/
theorem claim2_counterexample :
    simulate 0 ((2 ^ 1024 : ℕ) : ℤ) ((2 ^ 1024 : ℕ) : ℤ) = .error .overflowError ∧
    ((2 ^ 1024 : ℕ) : ℤ) + 0 ≠ 0 :=
  ⟨by decide, by decide⟩

/-- Claim C2 (amended): for non-negative inputs below `2^256` — the domain the
spec requires — the computation fails with `ZeroDivisionError` exactly when
`reserveIn + alphaIn = 0`, and in every other case the division step succeeds. -/
theorem claim2_division_by_zero_iff (a ri ro : ℤ) (_ha : 0 ≤ a) (hri : 0 ≤ ri)
    (hro : 0 ≤ ro) (_hau : a < ((2 ^ 256 : ℕ) : ℤ)) (hriu : ri < ((2 ^ 256 : ℕ) : ℤ))
    (hrou : ro < ((2 ^ 256 : ℕ) : ℤ)) :
    ((simulate a ri ro = .error .zeroDivisionError) ↔ ri + a = 0) ∧
    (ri + a ≠ 0 → ∃ r, simulate a ri ro = .ok r) := by
  have hbound : (ri * ro).natAbs < 2 ^ 512 := by
    rw [Int.natAbs_mul]
    have h1 : ri.natAbs < 2 ^ 256 := by omega
    have h2 : ro.natAbs < 2 ^ 256 := by omega
    calc ri.natAbs * ro.natAbs < 2 ^ 256 * 2 ^ 256 := Nat.mul_lt_mul'' h1 h2
      _ = 2 ^ 512 := by norm_num
  have hOk : ri + a ≠ 0 → ∃ r, simulate a ri ro = .ok r := by
    intro hbz
    obtain ⟨v, hv⟩ := pyDivInt_ok (ri * ro) (ri + a) hbz hbound
    exact ⟨mathCeil v, by unfold simulate; rw [hv]; rfl⟩
  have hZ : ri + a = 0 → simulate a ri ro = .error .zeroDivisionError := by
    intro hbz
    unfold simulate pyDivInt
    rw [if_pos hbz]
    rfl
  refine ⟨⟨fun herr => ?_, hZ⟩, hOk⟩
  by_contra hbz
  obtain ⟨r, hok⟩ := hOk hbz
  rw [hok] at herr
  exact Except.noConfusion herr

theorem claim2_division_by_zero_iff_witness :
    ((simulate 0 1 1 = .error .zeroDivisionError) ↔ (1 : ℤ) + 0 = 0) ∧
    ((1 : ℤ) + 0 ≠ 0 → ∃ r, simulate 0 1 1 = .ok r) :=
  claim2_division_by_zero_iff 0 1 1 (by decide) (by decide) (by decide)
    (by decide) (by decide) (by decide)

/-- Claim C3, counterexample: a negative command-line argument is parsed
without complaint and the program proceeds to compute and print a result, so
it does not fail with an invalid-argument condition on negative input. -/
theorem claim3_counterexample :
    pyMain ["prog", "-5", "10", "10"] =
      .ok "0x0000000000000000000000000000000000000000000000000000000000000014" := by
  decide

/-- Claim C3 (amended): if any of the three arguments fails to parse as an
integer, the program fails with `ValueError` (Python's `int()` failure) before
computing anything; negative integers, however, parse successfully and are not
rejected. -/
theorem claim3_unparseable_fails (p a1 a2 a3 : String)
    (h : (pyInt a1).isOk = false ∨ (pyInt a2).isOk = false ∨ (pyInt a3).isOk = false) :
    pyMain [p, a1, a2, a3] = .error .valueError := by
  have g1 : getArg [p, a1, a2, a3] 1 = .ok a1 := rfl
  have g2 : getArg [p, a1, a2, a3] 2 = .ok a2 := rfl
  have g3 : getArg [p, a1, a2, a3] 3 = .ok a3 := rfl
  unfold pyMain
  simp only [g1, g2, g3, ok_bind]
  rcases pyInt_shape a1 with e1 | ⟨v1, e1⟩
  · rw [e1]; rfl
  · rw [e1]; simp only [ok_bind]
    rcases pyInt_shape a2 with e2 | ⟨v2, e2⟩
    · rw [e2]; rfl
    · rw [e2]; simp only [ok_bind]
      rcases pyInt_shape a3 with e3 | ⟨v3, e3⟩
      · rw [e3]; rfl
      · exfalso
        rcases h with h | h | h <;>
          simp [e1, e2, e3, Except.isOk, Except.toBool] at h

theorem claim3_unparseable_fails_witness :
    pyMain ["p", "abc", "1", "1"] = .error .valueError :=
  claim3_unparseable_fails "p" "abc" "1" "1" (Or.inl (by decide))

/-- Claim C4: whenever the computed result exceeds `2^256 - 1`, the encoding
step rejects it and the run fails with the out-of-range condition instead of
printing a truncated or wrapped value. -/
theorem claim4_out_of_range (a ri ro r : ℤ) (hsim : simulate a ri ro = .ok r)
    (hr : (2 : ℤ) ^ 256 - 1 < r) :
    pyRun a ri ro = .error .valueOutOfBounds := by
  unfold pyRun
  rw [hsim]
  simp only [ok_bind]
  have henc : encode_single_uint256 r = .error .valueOutOfBounds := by
    unfold encode_single_uint256
    rw [if_neg (fun hcon => absurd hcon.2 (by omega))]
  rw [henc]
  rfl

theorem claim4_out_of_range_witness :
    pyRun 0 ((2 ^ 300 : ℕ) : ℤ) ((2 ^ 300 : ℕ) : ℤ) = .error .valueOutOfBounds :=
  claim4_out_of_range 0 ((2 ^ 300 : ℕ) : ℤ) ((2 ^ 300 : ℕ) : ℤ)
    ((2 ^ 300 : ℕ) : ℤ) (by decide) (by decide)

/-- Claim C5: every successful run outputs `0x` followed by exactly 64
lowercase hexadecimal characters, the big-endian encoding of the (in-range)
result integer. -/
theorem claim5_output_format (args : List String) (out : String)
    (h : pyMain args = .ok out) :
    ∃ r : ℤ, 0 ≤ r ∧ r < 2 ^ 256 ∧
      out = String.mk ('0' :: 'x' :: hexChars 64 r.toNat) ∧
      (hexChars 64 r.toNat).length = 64 ∧
      ∀ c ∈ hexChars 64 r.toNat, c ∈ hexDigitList := by
  unfold pyMain at h
  obtain ⟨alphaX, -, h⟩ := bind_ok h
  obtain ⟨reserveIn, -, h⟩ := bind_ok h
  obtain ⟨reserveOut, -, h⟩ := bind_ok h
  unfold pyRun at h
  obtain ⟨r, hsim, h⟩ := bind_ok h
  obtain ⟨enc, henc, h⟩ := bind_ok h
  have hout : String.mk ('0' :: 'x' :: enc) = out := by
    simpa [pure, Except.pure] using h
  unfold encode_single_uint256 at henc
  by_cases hcond : 0 ≤ r ∧ r < 2 ^ 256
  · rw [if_pos hcond] at henc
    have henc' : enc = hexChars 64 r.toNat := by
      rw [Except.ok.injEq] at henc
      exact henc.symm
    exact ⟨r, hcond.1, hcond.2, by rw [← hout, henc'],
      hexChars_length 64 _, fun c hc => hexChars_mem 64 _ c hc⟩
  · rw [if_neg hcond] at henc
    exact Except.noConfusion henc

theorem claim5_output_format_witness :
    ∃ r : ℤ, 0 ≤ r ∧ r < 2 ^ 256 ∧
      "0x00000000000000000000000000000000000000000000000000000000000001f0" =
        String.mk ('0' :: 'x' :: hexChars 64 r.toNat) ∧
      (hexChars 64 r.toNat).length = 64 ∧
      ∀ c ∈ hexChars 64 r.toNat, c ∈ hexDigitList :=
  claim5_output_format ["p", "10", "1000", "500"]
    "0x00000000000000000000000000000000000000000000000000000000000001f0" (by decide)

/-- Claim C6: on the concrete scenario `alphaIn = 10`, `reserveIn = 1000`,
`reserveOut = 500` the computed result is `496` and the printed line is the
32-byte big-endian encoding of `496`, ending in `...0001f0`. -/
theorem claim6_concrete_scenario :
    simulate 10 1000 500 = .ok 496 ∧
    pyMain ["simulateNewReserves.py", "10", "1000", "500"] =
      .ok "0x00000000000000000000000000000000000000000000000000000000000001f0" :=
  ⟨by decide, by decide⟩

/-- Claim C7: with no trade amount (`alphaIn = 0`) and reserves `100`/`50`,
the output-side reserve is returned unchanged. -/
theorem claim7_zero_alpha : simulate 0 100 50 = .ok 50 := by decide

/-- Claim C8: decoding the 64 hex characters of the output as a big-endian
integer recovers the encoded result exactly, for every value in `uint256`
range. -/
theorem claim8_roundtrip (n : ℕ) (h : n < 2 ^ 256) : decodeHex (hexChars 64 n) = n := by
  have h16 : n < 16 ^ 64 := by
    have hp : (16 : ℕ) ^ 64 = 2 ^ 256 := by norm_num
    rw [hp]; exact h
  unfold decodeHex
  simpa using decode_hexChars 64 n 0 h16

theorem claim8_roundtrip_witness : decodeHex (hexChars 64 496) = 496 :=
  claim8_roundtrip 496 (by norm_num)

/-- Claim C9: whenever the computed result is a negative integer (reachable
via negative arguments), the run fails at the `uint256` encoding step instead
of printing wrapped output. -/
theorem claim9_negative_result (a ri ro r : ℤ) (hsim : simulate a ri ro = .ok r)
    (hr : r < 0) :
    pyRun a ri ro = .error .valueOutOfBounds := by
  unfold pyRun
  rw [hsim]
  simp only [ok_bind]
  have henc : encode_single_uint256 r = .error .valueOutOfBounds := by
    unfold encode_single_uint256
    rw [if_neg (fun hcon => absurd hcon.1 (by omega))]
  rw [henc]
  rfl

theorem claim9_negative_result_witness :
    pyRun (-2) 1 5 = .error .valueOutOfBounds :=
  claim9_negative_result (-2) 1 5 (-5) (by decide) (by decide)

/-- Claim C10: the run's outcome depends only on the three command-line
arguments `args[1]`, `args[2]`, `args[3]`: two invocations that agree on them
produce the same printed line or the same failure. -/
theorem claim10_deterministic (args1 args2 : List String)
    (h1 : args1.get? 1 = args2.get? 1) (h2 : args1.get? 2 = args2.get? 2)
    (h3 : args1.get? 3 = args2.get? 3) :
    pyMain args1 = pyMain args2 := by
  unfold pyMain getArg
  rw [h1, h2, h3]

theorem claim10_deterministic_witness :
    pyMain ["a", "1", "2", "3"] = pyMain ["b", "1", "2", "3", "x"] :=
  claim10_deterministic ["a", "1", "2", "3"] ["b", "1", "2", "3", "x"] rfl rfl rfl


end SimulateNewReserves
